import Mathlib

/-!
Shallow embedding of the task-tracking core of
`src/pdftranslate_web/api_server20251011.py`:

* `TranslationStatus` — the pydantic model of the same name (one record per task);
  the `status` field is a plain string exactly as in the Python code
  (`"pending"`, `"processing"`, `"completed"`, `"failed"`), and `progress`
  (a Python float that the program only ever copies from engine events,
  never computes with) is modelled as a rational number.
* `Event` — the tagged events yielded by
  `babeldoc.format.pdf.high_level.async_translate`; the program reads the
  fields `overall_progress`, `stage`, `stage_current`, `stage_total`,
  `error` and `translate_result` with `.get` defaults, so each is an
  `Option`.  Events whose `type` matches none of the three handled tags are
  skipped by the `if/elif` chain, embedded as `Event.other`.
* `translate_document` — the orchestrator coroutine.  Its effect on the
  shared state is a sequence of field writes to `translation_tasks[task_id]`
  (plus one write to `task_files[task_id]`); we embed the run as the list of
  those writes (`runWrites`) folded over a run state, so that both the final
  state and every intermediate state a polling client can observe are
  derivable from one definition.  The filesystem (`Path(...).exists()`) is a
  parameter `fsys : String → Bool`.  Exceptions (engine construction,
  configuration, or the event stream raising mid-iteration) are the
  `EngineRun.setupFail` case and the `tail` field of `EngineRun.stream`;
  the `try/except` of the Python code is the tail handling of `runWrites`.
* `translate_pdf`, `download_result` — the HTTP handlers, over a store
  `String → Option TranslationStatus` (the `translation_tasks` dict) and
  `String → Option (List (String × String))` (the `task_files` dict);
  `raise HTTPException` is the `Except.error` branch.
-/

/-- The pydantic model `TranslationStatus` of the source
(`task_id`, `status`, `progress`, `message`, `result_files`).
`result_files` is the dict `{kind: path}`, kept as an association list
in insertion order (`"dual"` before `"mono"`, as the code inserts them). -/
structure TranslationStatus where
  task_id : String
  status : String
  progress : ℚ
  message : String
  result_files : List (String × String)
deriving DecidableEq, Repr

/-- Payload of a `progress_update` event: the code reads
`event.get("overall_progress", 0.0)`, `event.get('stage', '处理中')`,
`event.get('stage_current', 0)`, `event.get('stage_total', 100)`. -/
structure ProgressPayload where
  overall_progress : Option ℚ
  stage : Option String
  stage_current : Option Nat
  stage_total : Option Nat
deriving DecidableEq, Repr

/-- The `translate_result` object of a `finish` event: the code reads
`result.dual_pdf_path` and `result.mono_pdf_path` and tests them for
Python truthiness (`None` and the empty string are falsy). -/
structure TranslateResult where
  dual_pdf_path : Option String
  mono_pdf_path : Option String
deriving DecidableEq, Repr

/-- One event of the engine's asynchronous stream, discriminated on
`event["type"]`; a tag other than the three handled ones falls through
the `if/elif` chain and is ignored (`Event.other`). -/
inductive Event where
  | progress_update (p : ProgressPayload)
  | error (err : Option String)
  | finish (result : TranslateResult)
  | other (ty : String)
deriving DecidableEq, Repr

/-- One field write performed on the shared state for this task:
the four fields of `translation_tasks[task_id]`, plus the single write
to `task_files[task_id]` done in the `finish` branch. -/
inductive Write where
  | wstatus (s : String)
  | wprogress (p : ℚ)
  | wmessage (m : String)
  | wfiles (l : List (String × String))
  | wtfiles (l : List (String × String))
deriving DecidableEq, Repr

/-- Python truthiness of an optional string (`None` and `""` are falsy). -/
def truthy : Option String → Bool
  | none => false
  | some s => !s.isEmpty

/-- `if result.xxx_pdf_path and Path(result.xxx_pdf_path).exists():
result_files[kind] = str(result.xxx_pdf_path)` — the entry contributed by
one output kind of the `finish` branch. -/
def pathEntry (fsys : String → Bool) (kind : String) (p : Option String) :
    List (String × String) :=
  match p with
  | none => []
  | some s => if !s.isEmpty && fsys s then [(kind, s)] else []

/-- The writes performed by one iteration of the `async for` loop body,
paired with whether the loop stops afterwards (`return` on `error`,
`break` on `finish`). -/
def eventWrites (fsys : String → Bool) : Event → List Write × Bool
  | Event.progress_update p =>
    ([Write.wprogress (p.overall_progress.getD 0),
      Write.wmessage (p.stage.getD "处理中" ++ " (" ++
        toString (p.stage_current.getD 0) ++ "/" ++
        toString (p.stage_total.getD 100) ++ ")")], false)
  | Event.error err =>
    ([Write.wstatus "failed",
      Write.wmessage ("翻译失败: " ++ err.getD "未知错误")], true)
  | Event.finish result =>
    let files := pathEntry fsys "dual" result.dual_pdf_path ++
      pathEntry fsys "mono" result.mono_pdf_path
    ([Write.wstatus "completed", Write.wprogress 100, Write.wmessage "翻译完成",
      Write.wfiles files, Write.wtfiles files], true)
  | Event.other _ => ([], false)

/-- The writes of the whole `async for` loop over the delivered events,
paired with whether the loop exited early (so that nothing after the
stopping event — including a pending exception of the generator — is
ever observed). -/
def loopWrites (fsys : String → Bool) : List Event → List Write × Bool
  | [] => ([], false)
  | e :: rest =>
    let ws := eventWrites fsys e
    if ws.2 then (ws.1, true)
    else ((ws.1 ++ (loopWrites fsys rest).1), (loopWrites fsys rest).2)

/-- One run of the engine as observed by the orchestrator:
either the setup code inside the `try` (translator construction,
layout-model load, `TranslationConfig`) raises before any event is
consumed, or the stream delivers a list of events and then — if the loop
is still consuming — optionally raises (`tail`). -/
inductive EngineRun where
  | setupFail (e : String)
  | stream (events : List Event) (tail : Option String)
deriving DecidableEq, Repr

/-- The complete sequence of writes `translate_document` performs for its
task: the two initial writes inside the `try`, the loop writes, and the
`except Exception` handler's two writes when an exception is raised and
the loop had not already stopped. -/
def runWrites (fsys : String → Bool) : EngineRun → List Write
  | EngineRun.setupFail e =>
    [Write.wstatus "processing", Write.wmessage "正在初始化翻译器...",
     Write.wstatus "failed", Write.wmessage ("翻译过程出错: " ++ e)]
  | EngineRun.stream events tail =>
    [Write.wstatus "processing", Write.wmessage "正在初始化翻译器...",
     Write.wmessage "正在翻译文档..."] ++
    (loopWrites fsys events).1 ++
    (if (loopWrites fsys events).2 then []
     else match tail with
      | some e => [Write.wstatus "failed",
                   Write.wmessage ("翻译过程出错: " ++ e)]
      | none => [])

/-- The mutable state `translate_document` touches for one task:
its `translation_tasks` record and its `task_files` entry
(`none` while `task_id not in task_files`). -/
structure RunState where
  record : TranslationStatus
  files_entry : Option (List (String × String))
deriving DecidableEq, Repr

/-- Apply one field write to the task's state. -/
def applyWrite (s : RunState) : Write → RunState
  | Write.wstatus st => { s with record := { s.record with status := st } }
  | Write.wprogress p => { s with record := { s.record with progress := p } }
  | Write.wmessage m => { s with record := { s.record with message := m } }
  | Write.wfiles l => { s with record := { s.record with result_files := l } }
  | Write.wtfiles l => { s with files_entry := some l }

/-- The orchestrator `translate_document`, as the effect of its write
sequence on the task's state.  It is a total function: no exception
propagates out of it (the `except Exception` handler of the source is the
tail case of `runWrites`). -/
def translate_document (fsys : String → Bool) (run : EngineRun)
    (s : RunState) : RunState :=
  (runWrites fsys run).foldl applyWrite s

/-- Project a write onto the `status` field (`some s` for a status write). -/
def statusOf : Write → Option String
  | Write.wstatus s => some s
  | _ => none

/-- Project a write onto the `progress` field. -/
def progressOf : Write → Option ℚ
  | Write.wprogress p => some p
  | _ => none

/-- The sequence of values successively written to the `status` field
during one run. -/
def statusWrites (fsys : String → Bool) (run : EngineRun) : List String :=
  (runWrites fsys run).filterMap statusOf

/-- The forward transitions of the task lifecycle named by the spec:
`pending → processing → (completed | failed)`; a terminal status has no
outgoing transition. -/
def allowedStep (a b : String) : Bool :=
  (a == "pending" && b == "processing") ||
  (a == "processing" && (b == "completed" || b == "failed"))

/-- A terminal status. -/
def isTerminal (s : String) : Bool := s == "completed" || s == "failed"

/-- The sequence of values the `progress` field takes across one run: its
value before the run and after each write — exactly what successive polls
of `GET /status/{task_id}` can observe. -/
def observedProgress (fsys : String → Bool) (run : EngineRun)
    (s : RunState) : List ℚ :=
  (((runWrites fsys run).scanl applyWrite s).map fun st => st.record.progress)

/-- The `overall_progress` values (with the `.get` default `0.0`) carried
by the `progress_update` events of a list, in order — the raw sequence the
engine emits. -/
def emittedProgress : List Event → List ℚ
  | [] => []
  | Event.progress_update p :: rest => p.overall_progress.getD 0 :: emittedProgress rest
  | _ :: rest => emittedProgress rest

/-- The exception actually raised inside `translate_document`'s `try`
block, if any: a setup failure always raises; a stream exception is raised
only if the loop was still consuming when the stream ended. -/
def raisedException (fsys : String → Bool) : EngineRun → Option String
  | EngineRun.setupFail e => some e
  | EngineRun.stream events tail =>
    if (loopWrites fsys events).2 then none else tail

/-- Python `str.lower()`, character by character (the filenames the
program compares are ASCII, where `Char.toLower` agrees with Python). -/
def pyLower (s : String) : String := String.mk (s.data.map Char.toLower)

/-- Python `str.endswith(suffix)`: the suffix test on the character
sequences. -/
def pyEndsWith (s suffix : String) : Bool := suffix.data.isSuffixOf s.data

/-- `raise HTTPException(status_code=..., detail=...)`. -/
structure HTTPException where
  status_code : Nat
  detail : String
deriving DecidableEq, Repr

/-- The `translation_tasks` dict: `task_id → TranslationStatus`. -/
def Store : Type := String → Option TranslationStatus

/-- The `task_files` dict: `task_id → {file_type: Path}`. -/
def TaskFiles : Type := String → Option (List (String × String))

/-- The fresh record `TranslationStatus(task_id=task_id, status="pending",
message="任务已创建，等待处理...")` built in `translate_pdf`
(the pydantic defaults supply `progress=0.0` and `result_files={}`). -/
def initialStatus (task_id : String) : TranslationStatus :=
  { task_id := task_id, status := "pending", progress := 0,
    message := "任务已创建，等待处理...", result_files := [] }

/-- `translation_tasks[task_id] = TranslationStatus(...)` — a plain dict
assignment: it stores the fresh pending record under `task_id`,
overwriting whatever record (if any) was there before. -/
def createTask (store : Store) (task_id : String) : Store :=
  fun i => if i = task_id then some (initialStatus task_id) else store i

/-- The JSON body `{"task_id": task_id, "message": "翻译任务已创建"}`
returned by `POST /translate`. -/
structure TranslateResponse where
  task_id : String
  message : String
deriving DecidableEq, Repr

/-- The handler of `POST /translate`.  `task_id` stands for the value of
`str(uuid.uuid4())` drawn during the request.  It returns the HTTP outcome
together with the `translation_tasks` store after the request; the
background task (`translate_document`) is only scheduled via
`background_tasks.add_task`, never executed before the response, so the
store the handler leaves behind is exactly the store at response time. -/
def translate_pdf (store : Store) (filename task_id : String) :
    Except HTTPException TranslateResponse × Store :=
  if !(pyEndsWith (pyLower filename) ".pdf") then
    (Except.error { status_code := 400, detail := "只支持PDF文件" }, store)
  else
    (Except.ok { task_id := task_id, message := "翻译任务已创建" },
     createTask store task_id)

/-- `FileResponse(path=file_path, filename=file_path.name,
media_type='application/pdf')`; `Path.name` is the last path component. -/
structure FileResponse where
  path : String
  filename : String
  media_type : String
deriving DecidableEq, Repr

/-- `Path(p).name` — the final component of the path. -/
def pathName (p : String) : String :=
  String.mk ((p.data.splitOn '/').getLastD [])

/-- The handler of `GET /download/{task_id}/{file_type}`, over the two
dicts and the filesystem `fsys` (`Path(...).exists()`). -/
def download_result (store : Store) (task_files : TaskFiles)
    (fsys : String → Bool) (task_id file_type : String) :
    Except HTTPException FileResponse :=
  match store task_id with
  | none => Except.error { status_code := 404, detail := "任务不存在" }
  | some record =>
    if record.status ≠ "completed" then
      Except.error { status_code := 400, detail := "翻译尚未完成" }
    else
      match task_files task_id with
      | none => Except.error { status_code := 404, detail := "文件不存在" }
      | some m =>
        match m.lookup file_type with
        | none => Except.error { status_code := 404, detail := "文件不存在" }
        | some file_path =>
          if !fsys file_path then
            Except.error { status_code := 404, detail := "文件不存在" }
          else
            Except.ok { path := file_path, filename := pathName file_path,
                        media_type := "application/pdf" }

/-- The `overall_progress` values successively emitted by a run's stream
(none for a run that fails during setup). -/
def runEmitted : EngineRun → List ℚ
  | EngineRun.setupFail _ => []
  | EngineRun.stream events _ => emittedProgress events

/-- A filesystem on which no path exists — used for concrete runs. -/
def fs0 : String → Bool := fun _ => false

/-- A filesystem on which exactly the path `/out/d.pdf` exists. -/
def fs1 : String → Bool := fun s => s == "/out/d.pdf"

/-- The state of a freshly created task `"t"`, as `translate_pdf` leaves
it before the background run starts. -/
def st0 : RunState := { record := initialStatus "t", files_entry := none }

/-- A bare progress event reporting `q`, with every other field absent. -/
def pu (q : ℚ) : Event :=
  Event.progress_update { overall_progress := some q, stage := none,
                          stage_current := none, stage_total := none }

/-- A concrete engine stream whose two progress events report 50 then 30. -/
def runDecreasing : EngineRun :=
  EngineRun.stream
    [Event.progress_update { overall_progress := some 50, stage := none,
                             stage_current := none, stage_total := none },
     Event.progress_update { overall_progress := some 30, stage := none,
                             stage_current := none, stage_total := none }]
    none

/-- A concrete engine stream with increasing progress then a `finish`
event whose dual output is `/out/d.pdf`. -/
def runIncreasing : EngineRun :=
  EngineRun.stream
    [Event.progress_update { overall_progress := some 10, stage := none,
                             stage_current := none, stage_total := none },
     Event.progress_update { overall_progress := some 60, stage := some "翻译",
                             stage_current := some 3, stage_total := some 5 },
     Event.finish { dual_pdf_path := some "/out/d.pdf", mono_pdf_path := none }]
    none

/-- A completed record for task `"t"`, as the orchestrator leaves it. -/
def completedRecord : TranslationStatus :=
  { task_id := "t", status := "completed", progress := 100,
    message := "翻译完成", result_files := [("dual", "/out/d.pdf")] }

/-- A `translation_tasks` store holding the completed task `"t"` only. -/
def storeCompleted : Store :=
  fun i => if i = "t" then some completedRecord else none

/-- A `task_files` store holding the dual output of task `"t"` only. -/
def taskFilesCompleted : TaskFiles :=
  fun i => if i = "t" then some [("dual", "/out/d.pdf")] else none

/-- The empty `translation_tasks` store. -/
def emptyStore : Store := fun _ => none

/-- The empty `task_files` store. -/
def emptyTaskFiles : TaskFiles := fun _ => none

/-! ### Helper lemmas on the write sequences -/

lemma loopWrites_status_cases (fsys : String → Bool) (events : List Event) :
    ((loopWrites fsys events).2 = false ∧
      (loopWrites fsys events).1.filterMap statusOf = []) ∨
    ((loopWrites fsys events).2 = true ∧
      ((loopWrites fsys events).1.filterMap statusOf = ["completed"] ∨
       (loopWrites fsys events).1.filterMap statusOf = ["failed"])) := by
  induction events with
  | nil => exact Or.inl ⟨rfl, rfl⟩
  | cons e rest ih =>
    cases e with
    | progress_update p =>
      rcases ih with ⟨h1, h2⟩ | ⟨h1, h2⟩
      · exact Or.inl ⟨by simp [loopWrites, eventWrites, h1],
          by simp [loopWrites, eventWrites, statusOf, h2]⟩
      · exact Or.inr ⟨by simp [loopWrites, eventWrites, h1],
          by simpa [loopWrites, eventWrites, statusOf] using h2⟩
    | error err =>
      exact Or.inr ⟨by simp [loopWrites, eventWrites],
        Or.inr (by simp [loopWrites, eventWrites, statusOf])⟩
    | finish result =>
      exact Or.inr ⟨by simp [loopWrites, eventWrites],
        Or.inl (by simp [loopWrites, eventWrites, statusOf])⟩
    | other ty =>
      rcases ih with ⟨h1, h2⟩ | ⟨h1, h2⟩
      · exact Or.inl ⟨by simp [loopWrites, eventWrites, h1],
          by simp [loopWrites, eventWrites, statusOf, h2]⟩
      · exact Or.inr ⟨by simp [loopWrites, eventWrites, h1],
          by simpa [loopWrites, eventWrites, statusOf] using h2⟩

lemma statusWrites_cases (fsys : String → Bool) (run : EngineRun) :
    statusWrites fsys run = ["processing"] ∨
    statusWrites fsys run = ["processing", "completed"] ∨
    statusWrites fsys run = ["processing", "failed"] := by
  cases run with
  | setupFail e =>
    exact Or.inr (Or.inr (by simp [statusWrites, runWrites, statusOf]))
  | stream events tail =>
    rcases loopWrites_status_cases fsys events with ⟨h1, h2⟩ | ⟨h1, h2⟩
    · cases tail with
      | none =>
        exact Or.inl (by simp [statusWrites, runWrites, statusOf, h1, h2])
      | some e =>
        exact Or.inr (Or.inr
          (by simp [statusWrites, runWrites, statusOf, h1, h2]))
    · rcases h2 with h2 | h2
      · exact Or.inr (Or.inl
          (by simp [statusWrites, runWrites, statusOf, h1, h2]))
      · exact Or.inr (Or.inr
          (by simp [statusWrites, runWrites, statusOf, h1, h2]))

lemma terminal_no_outgoing (s x : String) (h : isTerminal s = true) :
    allowedStep s x = false := by
  have hs : s = "completed" ∨ s = "failed" := by
    simpa [isTerminal, Bool.or_eq_true, beq_iff_eq] using h
  have h1 : (("completed" : String) == "pending") = false := by decide
  have h2 : (("completed" : String) == "processing") = false := by decide
  have h3 : (("failed" : String) == "pending") = false := by decide
  have h4 : (("failed" : String) == "processing") = false := by decide
  rcases hs with h | h <;> subst h <;> simp [allowedStep, h1, h2, h3, h4]

lemma chain'_terminal_last (pre : List String) :
    ∀ (l : List String) (s : String) (post : List String),
      List.Chain' (fun a b => allowedStep a b = true) l →
      l = pre ++ s :: post → isTerminal s = true → post = [] := by
  induction pre with
  | nil =>
    intro l s post hchain heq hterm
    subst heq
    cases post with
    | nil => rfl
    | cons x post =>
      have hx : allowedStep s x = true := (List.chain'_cons.mp hchain).1
      rw [terminal_no_outgoing s x hterm] at hx
      exact absurd hx (by simp)
  | cons p ps ih =>
    intro l s post hchain heq hterm
    subst heq
    exact ih (ps ++ s :: post) s post (List.Chain'.tail hchain) rfl hterm

/-! ### C1: terminal statuses are never left -/

/-- C1: for every run of the orchestrator, the sequence of status values
written for one task — starting from the `"pending"` stored at creation —
follows only the forward order pending → processing → (completed or
failed); since a terminal status has no outgoing `allowedStep`, once
`"completed"` or `"failed"` is written no later write changes the status:
any terminal element of the write sequence is its last element. -/
theorem status_transitions_monotone (fsys : String → Bool) (run : EngineRun) :
    List.Chain' (fun a b => allowedStep a b = true)
      ("pending" :: statusWrites fsys run) ∧
    ∀ (pre : List String) (s : String) (post : List String),
      "pending" :: statusWrites fsys run = pre ++ s :: post →
      isTerminal s = true → post = [] := by
  have hchain : List.Chain' (fun a b => allowedStep a b = true)
      ("pending" :: statusWrites fsys run) := by
    rcases statusWrites_cases fsys run with h | h | h <;> rw [h] <;>
      simp [List.chain'_cons, allowedStep]
  exact ⟨hchain, fun pre s post heq hterm =>
    chain'_terminal_last pre _ s post hchain heq hterm⟩

/-- Witness for C1 at a concrete run ending in a `finish` event. -/
theorem status_transitions_monotone_witness :
    List.Chain' (fun a b => allowedStep a b = true)
      ("pending" :: statusWrites fs0 runIncreasing) ∧
    ([] : List String) = [] :=
  ⟨(status_transitions_monotone fs0 runIncreasing).1,
   (status_transitions_monotone fs0 runIncreasing).2
     ["pending", "processing"] "completed" [] (by decide) (by decide)⟩

/-! ### C6: non-PDF uploads are rejected without touching the store -/

/-- C6: when the uploaded filename does not carry the `.pdf` suffix
(Python: `not file.filename.lower().endswith('.pdf')`), `POST /translate`
answers HTTP 400 and returns the task store exactly as it was: no task id
is allocated and no record is created. -/
theorem non_pdf_rejected (store : Store) (filename task_id : String)
    (h : pyEndsWith (pyLower filename) ".pdf" = false) :
    translate_pdf store filename task_id =
      (Except.error { status_code := 400, detail := "只支持PDF文件" }, store) := by
  simp [translate_pdf, h]

/-- Witness for C6: uploading `report.txt` yields 400 and an unchanged
(empty) store. -/
theorem non_pdf_rejected_witness :
    translate_pdf emptyStore "report.txt" "t" =
      (Except.error { status_code := 400, detail := "只支持PDF文件" },
       emptyStore) :=
  non_pdf_rejected emptyStore "report.txt" "t" (by decide)

/-! ### C8: at response time a new task is pending -/

/-- C8: for every valid PDF submission, `POST /translate` returns
`{task_id, "翻译任务已创建"}` and at that moment the record stored under
the task id has status `"pending"` — in particular pending-or-processing
and neither `"completed"` nor `"failed"` — because the orchestrator run is
only scheduled, never executed, before the response is returned. -/
theorem submit_leaves_task_pending (store : Store) (filename task_id : String)
    (h : pyEndsWith (pyLower filename) ".pdf" = true) :
    (translate_pdf store filename task_id).1 =
      Except.ok { task_id := task_id, message := "翻译任务已创建" } ∧
    ∃ record, (translate_pdf store filename task_id).2 task_id = some record ∧
      (record.status = "pending" ∨ record.status = "processing") ∧
      record.status ≠ "completed" ∧ record.status ≠ "failed" := by
  refine ⟨by simp [translate_pdf, h], initialStatus task_id, ?_, Or.inl rfl,
    by simp [initialStatus], by simp [initialStatus]⟩
  simp [translate_pdf, h, createTask]

/-- Witness for C8 at the upload `a.pdf`. -/
theorem submit_leaves_task_pending_witness :
    (translate_pdf emptyStore "a.pdf" "t").1 =
      Except.ok { task_id := "t", message := "翻译任务已创建" } ∧
    ∃ record, (translate_pdf emptyStore "a.pdf" "t").2 "t" = some record ∧
      (record.status = "pending" ∨ record.status = "processing") ∧
      record.status ≠ "completed" ∧ record.status ≠ "failed" :=
  submit_leaves_task_pending emptyStore "a.pdf" "t" (by decide)

/-! ### C9: task creation is a plain overwriting dict assignment -/

/-- C9 counterexample: the source's "create" is the dict assignment
`translation_tasks[task_id] = TranslationStatus(...)`; with the id `"t"`
already present (here with a completed record), the assignment succeeds
and replaces the existing record instead of failing with a
DuplicateTaskError. -/
theorem create_replaces_existing_record :
    storeCompleted "t" = some completedRecord ∧
    (createTask storeCompleted "t") "t" = some (initialStatus "t") ∧
    (createTask storeCompleted "t") "t" ≠ storeCompleted "t" := by
  refine ⟨by decide, by decide, by decide⟩

/-- C9 amended: creation never fails; for any task id — present or not —
it stores a fresh pending record under that id, replacing any existing
record, and leaves every other id untouched (uniqueness in the program
rests solely on the freshness of `uuid.uuid4()`). -/
theorem create_always_overwrites (store : Store) (task_id : String) :
    (createTask store task_id) task_id = some (initialStatus task_id) ∧
    ∀ i, i ≠ task_id → (createTask store task_id) i = store i := by
  exact ⟨by simp [createTask], fun i hi => by simp [createTask, hi]⟩

/-- Witness for C9 (amended) at the occupied store. -/
theorem create_always_overwrites_witness :
    (createTask storeCompleted "t") "t" = some (initialStatus "t") ∧
    (createTask storeCompleted "t") "u" = storeCompleted "u" :=
  ⟨(create_always_overwrites storeCompleted "t").1,
   (create_always_overwrites storeCompleted "t").2 "u" (by decide)⟩

/-! ### C10: the PDF check is case-insensitive -/

/-- C10: the upload is accepted exactly when the lowercased filename ends
with `.pdf`; in particular `REPORT.PDF` is accepted and a (pending) task
is created for it. -/
theorem pdf_suffix_case_insensitive (store : Store) (filename task_id : String) :
    (translate_pdf store filename task_id).1.isOk =
      pyEndsWith (pyLower filename) ".pdf" ∧
    (translate_pdf store "REPORT.PDF" task_id).2 task_id =
      some (initialStatus task_id) := by
  constructor
  · cases h : pyEndsWith (pyLower filename) ".pdf" <;>
      simp [translate_pdf, h, Except.isOk, Except.toBool]
  · have h : pyEndsWith (pyLower "REPORT.PDF") ".pdf" = true := by decide
    simp [translate_pdf, h, createTask]

/-! ### C7: the download endpoint's error ladder -/

/-- C7: `GET /download/{task_id}/{file_type}` answers 404 for an unknown
task, 400 for a known but not-yet-completed task, 404 when the completed
task has no `task_files` entry or the `file_type` is not among its
registered files or the registered file no longer exists on disk, and
otherwise serves the file with the `application/pdf` content type. -/
theorem download_result_cases (store : Store) (task_files : TaskFiles)
    (fsys : String → Bool) (task_id file_type : String) :
    (store task_id = none →
      download_result store task_files fsys task_id file_type =
        Except.error { status_code := 404, detail := "任务不存在" }) ∧
    (∀ record, store task_id = some record → record.status ≠ "completed" →
      download_result store task_files fsys task_id file_type =
        Except.error { status_code := 400, detail := "翻译尚未完成" }) ∧
    (∀ record, store task_id = some record → record.status = "completed" →
      task_files task_id = none →
      download_result store task_files fsys task_id file_type =
        Except.error { status_code := 404, detail := "文件不存在" }) ∧
    (∀ record m, store task_id = some record → record.status = "completed" →
      task_files task_id = some m → m.lookup file_type = none →
      download_result store task_files fsys task_id file_type =
        Except.error { status_code := 404, detail := "文件不存在" }) ∧
    (∀ record m file_path, store task_id = some record →
      record.status = "completed" → task_files task_id = some m →
      m.lookup file_type = some file_path → fsys file_path = false →
      download_result store task_files fsys task_id file_type =
        Except.error { status_code := 404, detail := "文件不存在" }) ∧
    (∀ record m file_path, store task_id = some record →
      record.status = "completed" → task_files task_id = some m →
      m.lookup file_type = some file_path → fsys file_path = true →
      download_result store task_files fsys task_id file_type =
        Except.ok { path := file_path, filename := pathName file_path,
                    media_type := "application/pdf" }) := by
  refine ⟨?_, ?_, ?_, ?_, ?_, ?_⟩
  · intro h; simp [download_result, h]
  · intro record h1 h2; simp [download_result, h1, h2]
  · intro record h1 h2 h3; simp [download_result, h1, h2, h3]
  · intro record m h1 h2 h3 h4; simp [download_result, h1, h2, h3, h4]
  · intro record m file_path h1 h2 h3 h4 h5
    simp [download_result, h1, h2, h3, h4, h5]
  · intro record m file_path h1 h2 h3 h4 h5
    simp [download_result, h1, h2, h3, h4, h5]

/-- Witness for C7: the unknown-task, not-completed and successful
branches at concrete stores. -/
theorem download_result_cases_witness :
    (download_result emptyStore emptyTaskFiles fs1 "t" "dual" =
      Except.error { status_code := 404, detail := "任务不存在" }) ∧
    (download_result (createTask emptyStore "t") emptyTaskFiles fs1 "t" "dual" =
      Except.error { status_code := 400, detail := "翻译尚未完成" }) ∧
    (download_result storeCompleted taskFilesCompleted fs1 "t" "dual" =
      Except.ok { path := "/out/d.pdf", filename := "d.pdf",
                  media_type := "application/pdf" }) ∧
    (download_result storeCompleted taskFilesCompleted fs1 "t" "mono" =
      Except.error { status_code := 404, detail := "文件不存在" }) :=
  ⟨(download_result_cases emptyStore emptyTaskFiles fs1 "t" "dual").1 (by decide),
   (download_result_cases (createTask emptyStore "t") emptyTaskFiles fs1 "t"
      "dual").2.1 (initialStatus "t") (by decide) (by decide),
   (download_result_cases storeCompleted taskFilesCompleted fs1 "t"
      "dual").2.2.2.2.2 completedRecord [("dual", "/out/d.pdf")] "/out/d.pdf"
      (by decide) (by decide) (by decide) (by decide) (by decide),
   (download_result_cases storeCompleted taskFilesCompleted fs1 "t"
      "mono").2.2.2.1 completedRecord [("dual", "/out/d.pdf")]
      (by decide) (by decide) (by decide) (by decide)⟩

/-! ### Splitting a run at its first stopping event -/

lemma loopWrites_no_stop (fsys : String → Bool) (pre : List Event)
    (hpre : ∀ e ∈ pre, (eventWrites fsys e).2 = false) :
    (loopWrites fsys pre).2 = false := by
  induction pre with
  | nil => rfl
  | cons e rest ih =>
    have he : (eventWrites fsys e).2 = false := hpre e (by simp)
    have hr := ih (fun x hx => hpre x (by simp [hx]))
    simp [loopWrites, he, hr]

lemma loopWrites_append (fsys : String → Bool) (pre l : List Event)
    (hpre : ∀ e ∈ pre, (eventWrites fsys e).2 = false) :
    loopWrites fsys (pre ++ l) =
      ((loopWrites fsys pre).1 ++ (loopWrites fsys l).1,
       (loopWrites fsys l).2) := by
  induction pre with
  | nil => simp [loopWrites]
  | cons e rest ih =>
    have he : (eventWrites fsys e).2 = false := hpre e (by simp)
    have hr := ih (fun x hx => hpre x (by simp [hx]))
    simp [loopWrites, he, hr]

lemma runWrites_stream_none (fsys : String → Bool) (events : List Event) :
    runWrites fsys (EngineRun.stream events none) =
      [Write.wstatus "processing", Write.wmessage "正在初始化翻译器...",
       Write.wmessage "正在翻译文档..."] ++ (loopWrites fsys events).1 := by
  by_cases hb : (loopWrites fsys events).2 <;> simp [runWrites, hb]

lemma runWrites_stream_stops (fsys : String → Bool) (pre : List Event)
    (hpre : ∀ e ∈ pre, (eventWrites fsys e).2 = false)
    (e : Event) (he : (eventWrites fsys e).2 = true)
    (rest : List Event) (tail : Option String) :
    runWrites fsys (EngineRun.stream (pre ++ e :: rest) tail) =
      runWrites fsys (EngineRun.stream pre none) ++ (eventWrites fsys e).1 := by
  have h1 : loopWrites fsys (e :: rest) = ((eventWrites fsys e).1, true) := by
    simp [loopWrites, he]
  rw [runWrites_stream_none]
  simp [runWrites, loopWrites_append fsys pre (e :: rest) hpre, h1]

/-! ### C3: an error event fails the task and stops consumption -/

/-- C3: when the stream yields an `error` event (after any prefix of
non-stopping events), the orchestrator sets the status to `"failed"`, sets
the message `翻译失败: <error text>` (which contains the engine's reported
error text), leaves `progress` at its last reported value — the value it
had after the prefix — and processes no further event: the outcome is the
same whatever events or pending exception follow the error event. -/
theorem error_event_terminates_run (fsys : String → Bool) (pre : List Event)
    (err : Option String) (rest : List Event) (tail : Option String)
    (s0 : RunState)
    (hpre : ∀ e ∈ pre, (eventWrites fsys e).2 = false) :
    (translate_document fsys
      (EngineRun.stream (pre ++ Event.error err :: rest) tail) s0).record.status
        = "failed" ∧
    (translate_document fsys
      (EngineRun.stream (pre ++ Event.error err :: rest) tail) s0).record.message
        = "翻译失败: " ++ err.getD "未知错误" ∧
    (∀ t, err = some t → ∃ a, (translate_document fsys
      (EngineRun.stream (pre ++ Event.error err :: rest) tail) s0).record.message
        = a ++ t) ∧
    (translate_document fsys
      (EngineRun.stream (pre ++ Event.error err :: rest) tail) s0).record.progress
      = (translate_document fsys (EngineRun.stream pre none) s0).record.progress ∧
    translate_document fsys
        (EngineRun.stream (pre ++ Event.error err :: rest) tail) s0
      = translate_document fsys
          (EngineRun.stream (pre ++ [Event.error err]) none) s0 := by
  have he : (eventWrites fsys (Event.error err)).2 = true := by
    simp [eventWrites]
  have hsplit := runWrites_stream_stops fsys pre hpre (Event.error err) he rest tail
  have hsplit1 := runWrites_stream_stops fsys pre hpre (Event.error err) he [] none
  refine ⟨?_, ?_, ?_, ?_, ?_⟩
  · simp [translate_document, hsplit, List.foldl_append, eventWrites, applyWrite]
  · simp [translate_document, hsplit, List.foldl_append, eventWrites, applyWrite]
  · intro t ht
    subst ht
    refine ⟨"翻译失败: ", ?_⟩
    simp [translate_document, hsplit, List.foldl_append, eventWrites, applyWrite]
  · simp [translate_document, hsplit, List.foldl_append, eventWrites, applyWrite]
  · simp [translate_document, hsplit, hsplit1]

/-- Witness for C3: a progress event, then an error, then an ignored
progress event and an ignored pending stream exception. -/
theorem error_event_terminates_run_witness :
    (translate_document fs0
      (EngineRun.stream ([pu 42] ++ Event.error (some "boom") :: [pu 99])
        (some "late")) st0).record.status = "failed" ∧
    (translate_document fs0
      (EngineRun.stream ([pu 42] ++ Event.error (some "boom") :: [pu 99])
        (some "late")) st0).record.message = "翻译失败: " ++
          (some "boom").getD "未知错误" ∧
    (∀ t, some "boom" = some t → ∃ a, (translate_document fs0
      (EngineRun.stream ([pu 42] ++ Event.error (some "boom") :: [pu 99])
        (some "late")) st0).record.message = a ++ t) ∧
    (translate_document fs0
      (EngineRun.stream ([pu 42] ++ Event.error (some "boom") :: [pu 99])
        (some "late")) st0).record.progress
      = (translate_document fs0 (EngineRun.stream [pu 42] none) st0).record.progress ∧
    translate_document fs0
        (EngineRun.stream ([pu 42] ++ Event.error (some "boom") :: [pu 99])
          (some "late")) st0
      = translate_document fs0
          (EngineRun.stream ([pu 42] ++ [Event.error (some "boom")]) none) st0 :=
  error_event_terminates_run fs0 [pu 42] (some "boom") [pu 99] (some "late") st0
    (by decide)

/-! ### C4: a finish event completes the task -/

lemma pathEntry_mem (fsys : String → Bool) (kind : String) (p : Option String)
    (k v : String) :
    (k, v) ∈ pathEntry fsys kind p ↔
      (k = kind ∧ p = some v ∧ v ≠ "" ∧ fsys v = true) := by
  cases p with
  | none => simp [pathEntry]
  | some s =>
    by_cases h : (!s.isEmpty && fsys s) = true
    · have hs : ¬s = "" := by
        have := (Bool.and_eq_true _ _).mp h
        intro hs0
        rw [hs0] at this
        exact absurd this.1 (by decide)
      have hf : fsys s = true := ((Bool.and_eq_true _ _).mp h).2
      simp only [pathEntry, h, if_true]
      constructor
      · intro hmem
        have : (k, v) = (kind, s) := by simpa using hmem
        have hk : k = kind := congrArg Prod.fst this
        have hv : v = s := congrArg Prod.snd this
        subst hv
        exact ⟨hk, rfl, hs, hf⟩
      · rintro ⟨hk, hp, hv, hfv⟩
        have hv' : s = v := Option.some.inj hp
        subst hv'
        subst hk
        simp
    · simp only [pathEntry, h, if_false]
      constructor
      · intro hmem
        exact absurd hmem (List.not_mem_nil _)
      · rintro ⟨hk, hp, hv, hfv⟩
        have hv' : s = v := Option.some.inj hp
        subst hv'
        have hne : s.isEmpty ≠ true := fun hh =>
          hv ((String.isEmpty_iff s).mp hh)
        exact absurd (by simp [Bool.eq_false_iff.mpr hne, hfv]) h

/-- C4: when the stream yields a `finish` event (after any prefix of
non-stopping events), the orchestrator sets the status to `"completed"`
and the progress to 100, registers in `result_files` exactly those kinds
among dual and mono whose reported path is a non-empty string that exists
on disk, stores the same mapping in `task_files`, and consumes nothing
further: the outcome is the same whatever events or pending exception
follow the finish event. -/
theorem finish_event_completes_run (fsys : String → Bool) (pre : List Event)
    (result : TranslateResult) (rest : List Event) (tail : Option String)
    (s0 : RunState)
    (hpre : ∀ e ∈ pre, (eventWrites fsys e).2 = false) :
    (translate_document fsys
      (EngineRun.stream (pre ++ Event.finish result :: rest) tail) s0).record.status
        = "completed" ∧
    (translate_document fsys
      (EngineRun.stream (pre ++ Event.finish result :: rest) tail) s0).record.progress
        = 100 ∧
    (∀ k v, (k, v) ∈ (translate_document fsys
      (EngineRun.stream (pre ++ Event.finish result :: rest) tail)
        s0).record.result_files ↔
      ((k = "dual" ∧ result.dual_pdf_path = some v ∧ v ≠ "" ∧ fsys v = true) ∨
       (k = "mono" ∧ result.mono_pdf_path = some v ∧ v ≠ "" ∧ fsys v = true))) ∧
    (translate_document fsys
      (EngineRun.stream (pre ++ Event.finish result :: rest) tail) s0).files_entry
      = some (translate_document fsys
          (EngineRun.stream (pre ++ Event.finish result :: rest)
            tail) s0).record.result_files ∧
    translate_document fsys
        (EngineRun.stream (pre ++ Event.finish result :: rest) tail) s0
      = translate_document fsys
          (EngineRun.stream (pre ++ [Event.finish result]) none) s0 := by
  have he : (eventWrites fsys (Event.finish result)).2 = true := rfl
  have hsplit :=
    runWrites_stream_stops fsys pre hpre (Event.finish result) he rest tail
  have hsplit1 :=
    runWrites_stream_stops fsys pre hpre (Event.finish result) he [] none
  refine ⟨?_, ?_, ?_, ?_, ?_⟩
  · simp [translate_document, hsplit, List.foldl_append, eventWrites, applyWrite]
  · simp [translate_document, hsplit, List.foldl_append, eventWrites, applyWrite]
  · intro k v
    have hres : (translate_document fsys
        (EngineRun.stream (pre ++ Event.finish result :: rest)
          tail) s0).record.result_files
        = pathEntry fsys "dual" result.dual_pdf_path ++
          pathEntry fsys "mono" result.mono_pdf_path := by
      simp [translate_document, hsplit, List.foldl_append, eventWrites, applyWrite]
    rw [hres]
    simp [List.mem_append, pathEntry_mem]
  · simp [translate_document, hsplit, List.foldl_append, eventWrites, applyWrite]
  · simp [translate_document, hsplit, hsplit1]

/-- Witness for C4: finish after one progress event, dual path present on
disk, mono path the empty string, trailing event and pending exception
ignored. -/
theorem finish_event_completes_run_witness :
    (translate_document fs1
      (EngineRun.stream ([pu 10] ++
        Event.finish { dual_pdf_path := some "/out/d.pdf",
                       mono_pdf_path := some "" } :: [pu 5])
        (some "late")) st0).record.status = "completed" ∧
    (translate_document fs1
      (EngineRun.stream ([pu 10] ++
        Event.finish { dual_pdf_path := some "/out/d.pdf",
                       mono_pdf_path := some "" } :: [pu 5])
        (some "late")) st0).record.progress = 100 ∧
    (∀ k v, (k, v) ∈ (translate_document fs1
      (EngineRun.stream ([pu 10] ++
        Event.finish { dual_pdf_path := some "/out/d.pdf",
                       mono_pdf_path := some "" } :: [pu 5])
        (some "late")) st0).record.result_files ↔
      ((k = "dual" ∧ (some "/out/d.pdf" : Option String) = some v ∧
          v ≠ "" ∧ fs1 v = true) ∨
       (k = "mono" ∧ (some "" : Option String) = some v ∧
          v ≠ "" ∧ fs1 v = true))) ∧
    (translate_document fs1
      (EngineRun.stream ([pu 10] ++
        Event.finish { dual_pdf_path := some "/out/d.pdf",
                       mono_pdf_path := some "" } :: [pu 5])
        (some "late")) st0).files_entry
      = some (translate_document fs1
          (EngineRun.stream ([pu 10] ++
            Event.finish { dual_pdf_path := some "/out/d.pdf",
                           mono_pdf_path := some "" } :: [pu 5])
            (some "late")) st0).record.result_files ∧
    translate_document fs1
        (EngineRun.stream ([pu 10] ++
          Event.finish { dual_pdf_path := some "/out/d.pdf",
                         mono_pdf_path := some "" } :: [pu 5])
          (some "late")) st0
      = translate_document fs1
          (EngineRun.stream ([pu 10] ++
            [Event.finish { dual_pdf_path := some "/out/d.pdf",
                            mono_pdf_path := some "" }]) none) st0 :=
  finish_event_completes_run fs1 [pu 10]
    { dual_pdf_path := some "/out/d.pdf", mono_pdf_path := some "" }
    [pu 5] (some "late") st0 (by decide)

/-! ### C5: every raised exception is recorded as a failure -/

/-- C5: `translate_document` is a total function of the run — no exception
escapes it — and whenever an exception with message `e` is actually raised
inside its `try` block (during setup, or by the stream while the loop is
still consuming), the final record has status `"failed"` and a message
`翻译过程出错: <e>` containing the exception's message. -/
theorem exception_recorded_as_failed (fsys : String → Bool) (run : EngineRun)
    (s0 : RunState) (e : String) (h : raisedException fsys run = some e) :
    (translate_document fsys run s0).record.status = "failed" ∧
    ∃ a, (translate_document fsys run s0).record.message = a ++ e := by
  cases run with
  | setupFail e2 =>
    have he : e2 = e := by simpa [raisedException] using h
    subst he
    exact ⟨by simp [translate_document, runWrites, applyWrite],
      "翻译过程出错: ", by simp [translate_document, runWrites, applyWrite]⟩
  | stream events tail =>
    by_cases hb : (loopWrites fsys events).2 = true
    · rw [raisedException, if_pos hb] at h
      exact absurd h (by simp)
    · have hb' : (loopWrites fsys events).2 = false := by
        simpa using hb
      rw [raisedException, if_neg hb] at h
      subst h
      refine ⟨?_, "翻译过程出错: ", ?_⟩ <;>
        simp [translate_document, runWrites, hb', List.foldl_append, applyWrite]

/-- Witness for C5: the stream delivers one progress event and then
raises `io-error`. -/
theorem exception_recorded_as_failed_witness :
    (translate_document fs0
      (EngineRun.stream [pu 10] (some "io-error")) st0).record.status
        = "failed" ∧
    ∃ a, (translate_document fs0
      (EngineRun.stream [pu 10] (some "io-error")) st0).record.message
        = a ++ "io-error" :=
  exception_recorded_as_failed fs0 (EngineRun.stream [pu 10] (some "io-error"))
    st0 "io-error" (by decide)

/-! ### C2: progress across successive reads -/

lemma applyWrite_keeps_progress (s : RunState) (w : Write)
    (h : progressOf w = none) :
    (applyWrite s w).record.progress = s.record.progress := by
  cases w <;> simp_all [applyWrite, progressOf]

lemma applyWrite_sets_progress (s : RunState) (q : ℚ) :
    (applyWrite s (Write.wprogress q)).record.progress = q := rfl

lemma scanl_head_progress (ws : List Write) (s0 : RunState) :
    ((ws.scanl applyWrite s0).map fun st => st.record.progress).head?
      = some s0.record.progress := by
  cases ws <;> simp [List.scanl]

lemma chain_filterMap_step (w : Write) (ws : List Write) (s0 : RunState)
    (h : List.Chain' (fun a b : ℚ => a ≤ b)
      (s0.record.progress :: (w :: ws).filterMap progressOf)) :
    List.Chain' (fun a b : ℚ => a ≤ b)
      ((applyWrite s0 w).record.progress :: ws.filterMap progressOf) ∧
    s0.record.progress ≤ (applyWrite s0 w).record.progress := by
  cases w with
  | wprogress q =>
    simp only [List.filterMap_cons, progressOf] at h
    have hc := List.chain'_cons.mp h
    exact ⟨by simpa [applyWrite] using hc.2, by simpa [applyWrite] using hc.1⟩
  | wstatus s => exact ⟨by simpa [applyWrite, progressOf] using h, le_refl _⟩
  | wmessage m => exact ⟨by simpa [applyWrite, progressOf] using h, le_refl _⟩
  | wfiles l => exact ⟨by simpa [applyWrite, progressOf] using h, le_refl _⟩
  | wtfiles l => exact ⟨by simpa [applyWrite, progressOf] using h, le_refl _⟩

lemma scanl_progress_chain (ws : List Write) :
    ∀ s0 : RunState,
      List.Chain' (fun a b : ℚ => a ≤ b)
        (s0.record.progress :: ws.filterMap progressOf) →
      List.Chain' (fun a b : ℚ => a ≤ b)
        ((ws.scanl applyWrite s0).map fun st => st.record.progress) := by
  induction ws with
  | nil => intro s0 _; simp [List.scanl]
  | cons w ws ih =>
    intro s0 h
    obtain ⟨h1, h2⟩ := chain_filterMap_step w ws s0 h
    have hih := ih (applyWrite s0 w) h1
    rw [List.scanl_cons, List.singleton_append, List.map_cons]
    refine List.chain'_cons'.mpr ⟨?_, hih⟩
    intro y hy
    rw [scanl_head_progress] at hy
    have hy' : (applyWrite s0 w).record.progress = y := by
      simpa using hy
    rw [← hy']
    exact h2

lemma scanl_progress_bound (P : ℚ → Prop) (ws : List Write) :
    ∀ s0 : RunState, P s0.record.progress →
      (∀ q ∈ ws.filterMap progressOf, P q) →
      ∀ q ∈ (ws.scanl applyWrite s0).map fun st => st.record.progress, P q := by
  induction ws with
  | nil =>
    intro s0 h0 _ q hq
    simp [List.scanl] at hq
    rw [hq]
    exact h0
  | cons w ws ih =>
    intro s0 h0 hall q hq
    rw [List.scanl_cons, List.singleton_append, List.map_cons] at hq
    rcases List.mem_cons.mp hq with rfl | hq'
    · exact h0
    · refine ih (applyWrite s0 w) ?_ ?_ q hq'
      · cases w with
        | wprogress p => exact hall p (by simp [progressOf])
        | wstatus s => simpa [applyWrite] using h0
        | wmessage m => simpa [applyWrite] using h0
        | wfiles l => simpa [applyWrite] using h0
        | wtfiles l => simpa [applyWrite] using h0
      · intro x hx
        refine hall x ?_
        cases w <;> simp only [List.filterMap_cons, progressOf] <;>
          first
            | exact hx
            | exact List.mem_cons_of_mem _ hx

lemma loop_progress_spec (fsys : String → Bool) (events : List Event) :
    ∀ p0 : ℚ, 0 ≤ p0 → p0 ≤ 100 →
      List.Chain' (fun a b : ℚ => a ≤ b) (p0 :: emittedProgress events) →
      (∀ q ∈ emittedProgress events, 0 ≤ q ∧ q ≤ 100) →
      List.Chain' (fun a b : ℚ => a ≤ b)
        (p0 :: (loopWrites fsys events).1.filterMap progressOf) ∧
      ∀ q ∈ (loopWrites fsys events).1.filterMap progressOf,
        0 ≤ q ∧ q ≤ 100 := by
  induction events with
  | nil =>
    intro p0 _ _ _ _
    exact ⟨by simp [loopWrites], by simp [loopWrites]⟩
  | cons e rest ih =>
    intro p0 h0 h100 hch hbd
    cases e with
    | progress_update p =>
      have hem : emittedProgress (Event.progress_update p :: rest)
          = p.overall_progress.getD 0 :: emittedProgress rest := rfl
      rw [hem] at hch hbd
      have hc := List.chain'_cons.mp hch
      have hv := hbd (p.overall_progress.getD 0) (by simp)
      have hrest := ih (p.overall_progress.getD 0) hv.1 hv.2 hc.2
        (fun q hq => hbd q (by simp [hq]))
      have hfm : (loopWrites fsys (Event.progress_update p :: rest)).1.filterMap
          progressOf = p.overall_progress.getD 0 ::
            (loopWrites fsys rest).1.filterMap progressOf := by
        simp [loopWrites, eventWrites, progressOf]
      rw [hfm]
      refine ⟨List.chain'_cons.mpr ⟨hc.1, hrest.1⟩, ?_⟩
      intro q hq
      rcases List.mem_cons.mp hq with rfl | hq'
      · exact hv
      · exact hrest.2 q hq'
    | error err =>
      have hfm : (loopWrites fsys (Event.error err :: rest)).1.filterMap
          progressOf = [] := by
        simp [loopWrites, eventWrites, progressOf]
      rw [hfm]
      exact ⟨by simp, by simp⟩
    | finish result =>
      have hfm : (loopWrites fsys (Event.finish result :: rest)).1.filterMap
          progressOf = [100] := by
        simp [loopWrites, eventWrites, progressOf]
      rw [hfm]
      refine ⟨List.chain'_cons.mpr ⟨h100, by simp⟩, ?_⟩
      intro q hq
      have : q = 100 := by simpa using hq
      rw [this]
      norm_num
    | other ty =>
      have hem : emittedProgress (Event.other ty :: rest)
          = emittedProgress rest := rfl
      rw [hem] at hch hbd
      have hrest := ih p0 h0 h100 hch hbd
      have hfm : (loopWrites fsys (Event.other ty :: rest)).1.filterMap
          progressOf = (loopWrites fsys rest).1.filterMap progressOf := by
        simp [loopWrites, eventWrites]
      rw [hfm]
      exact hrest

lemma runWrites_progress_of_stream (fsys : String → Bool) (events : List Event)
    (tail : Option String) :
    (runWrites fsys (EngineRun.stream events tail)).filterMap progressOf
      = (loopWrites fsys events).1.filterMap progressOf := by
  by_cases hb : (loopWrites fsys events).2 = true
  · simp [runWrites, hb, progressOf]
  · have hb' : (loopWrites fsys events).2 = false := by simpa using hb
    cases tail <;> simp [runWrites, hb', progressOf]

lemma runWrites_progress_of_setupFail (fsys : String → Bool) (e : String) :
    (runWrites fsys (EngineRun.setupFail e)).filterMap progressOf = [] := by
  simp [runWrites, progressOf]

/-- C2 counterexample: the orchestrator copies `overall_progress` verbatim
(`translation_tasks[task_id].progress = event.get("overall_progress",
0.0)`), so a stream that reports 50 and then 30 makes the progress
observable by successive polls go 50 → 30 while the status stays
`"processing"`: the claim's monotonicity does not hold for every sequence
of progress events the engine may emit. -/
theorem progress_not_monotone_in_general :
    observedProgress fs0 runDecreasing st0 = [0, 0, 0, 0, 50, 50, 30, 30] ∧
    ¬ List.Chain' (fun a b : ℚ => a ≤ b)
        (observedProgress fs0 runDecreasing st0) ∧
    (translate_document fs0 runDecreasing st0).record.status = "processing" := by
  have hobs : observedProgress fs0 runDecreasing st0
      = [0, 0, 0, 0, 50, 50, 30, 30] := by decide
  refine ⟨hobs, ?_, by decide⟩
  intro hch
  rw [hobs] at hch
  simp only [List.chain'_cons, List.chain'_singleton, and_true] at hch
  have : (50 : ℚ) ≤ 30 := hch.2.2.2.2.2.1
  norm_num at this

/-- C2 amended: the progress values observable across successive reads of
a task (its value before the run and after each write the run performs)
are monotonically non-decreasing and stay within [0,100] **provided** the
engine's emitted `overall_progress` sequence is itself non-decreasing
(starting from the record's initial 0) and within [0,100]; the code
enforces neither bound itself, it copies the values verbatim. -/
theorem progress_monotone_in_range (fsys : String → Bool) (run : EngineRun)
    (s0 : RunState) (h0 : s0.record.progress = 0)
    (hch : List.Chain' (fun a b : ℚ => a ≤ b) (0 :: runEmitted run))
    (hbd : ∀ q ∈ runEmitted run, 0 ≤ q ∧ q ≤ 100) :
    List.Chain' (fun a b : ℚ => a ≤ b) (observedProgress fsys run s0) ∧
    ∀ q ∈ observedProgress fsys run s0, 0 ≤ q ∧ q ≤ 100 := by
  cases run with
  | setupFail e =>
    constructor
    · apply scanl_progress_chain
      rw [h0, runWrites_progress_of_setupFail]
      simp
    · apply scanl_progress_bound
      · rw [h0]
        norm_num
      · rw [runWrites_progress_of_setupFail]
        simp
  | stream events tail =>
    have hsp := loop_progress_spec fsys events 0 (le_refl 0) (by norm_num)
      (by simpa [runEmitted] using hch) (by simpa [runEmitted] using hbd)
    constructor
    · apply scanl_progress_chain
      rw [h0, runWrites_progress_of_stream]
      exact hsp.1
    · apply scanl_progress_bound
      · rw [h0]
        norm_num
      · rw [runWrites_progress_of_stream]
        exact hsp.2

/-- Witness for C2 (amended) at a stream reporting 10, 60, then finish. -/
theorem progress_monotone_in_range_witness :
    List.Chain' (fun a b : ℚ => a ≤ b)
      (observedProgress fs1 runIncreasing st0) ∧
    ∀ q ∈ observedProgress fs1 runIncreasing st0, 0 ≤ q ∧ q ≤ 100 :=
  progress_monotone_in_range fs1 runIncreasing st0 (by decide)
    (by
      have h : runEmitted runIncreasing = [10, 60] := by decide
      rw [h]
      simp only [List.chain'_cons, List.chain'_singleton, and_true]
      norm_num)
    (by
      have h : runEmitted runIncreasing = [10, 60] := by decide
      rw [h]
      intro q hq
      fin_cases hq <;> norm_num)
